import Mathlib

/-!
Shallow embedding of `deepmd/dpmodel/output_def.py` (and the `DeepDOS.output_def`
declaration of `deepmd/infer/deep_dos.py`): the output-schema algebra of the
deepmd-kit model layer.  Python dictionaries are embedded as ordered association
lists with overwrite-on-insert semantics (Python 3.7+ insertion order), Python
exceptions as an explicit error type inside `Except`, and Python ints as `Int`
(shapes, sizes) or `Nat` (bit-flag categories, which are always non-negative).
-/

namespace OutputDef

/-- Error values raised by the embedded module.  Each constructor corresponds to
one distinct Python exception site (AssertionError, IndexError, KeyError, or a
`ValueError` with a specific message). -/
inductive OutErr where
  | assertFail : OutErr
  | indexError : OutErr
  | keyError : String → OutErr
  | shapeNotMatching : List Int → List Int → OutErr
  | lengthNotMatching : List Int → List Int → OutErr
  | operationApplied : Nat → OutErr
  | operationAppliedTwice : Nat → OutErr
  | operationNotSupported : Nat → OutErr
  | cDiffRequiresRDiff : OutErr
  | reducibleRequiresAtomic : OutErr
  | intensiveRequiresReducible : OutErr
  | hessianRequiresReducible : OutErr
  | hessianRequiresRDiff : OutErr
  deriving DecidableEq, Repr

/-- Bit value of `OutputVariableOperation.REDU`. -/
def OP_REDU : Nat := 1

/-- Bit value of `OutputVariableOperation.DERV_R`. -/
def OP_DERV_R : Nat := 2

/-- Bit value of `OutputVariableOperation.DERV_C`. -/
def OP_DERV_C : Nat := 4

/-- Bit value of `OutputVariableOperation._SEC_DERV_R`. -/
def OP_SEC_DERV_R : Nat := 8

/-- Bit value of `OutputVariableOperation.MAG`. -/
def OP_MAG : Nat := 16

/-- The fields of a constructed `OutputVariableDef` object. -/
structure OutputVariableDef where
  name : String
  shape : List Int
  output_size : Int
  atomic : Bool
  reducible : Bool
  r_differentiable : Bool
  c_differentiable : Bool
  intensive : Bool
  category : Nat
  r_hessian : Bool
  magnetic : Bool
  deriving DecidableEq, Repr

/-- The `size` property of `OutputVariableDef`. -/
def OutputVariableDef.size (v : OutputVariableDef) : Int := v.output_size

/-- Embeds `OutputVariableDef.__init__`: computes `output_size` as the running
product of the shape entries and performs the construction-time invariant
checks in source order, raising the corresponding `ValueError` on violation. -/
def mkOutputVariableDef (name : String) (shape : List Int)
    (reducible r_differentiable c_differentiable atomic : Bool)
    (category : Nat) (r_hessian magnetic intensive : Bool) :
    Except OutErr OutputVariableDef :=
  if c_differentiable && !r_differentiable then .error .cDiffRequiresRDiff
  else if reducible && !atomic then .error .reducibleRequiresAtomic
  else if intensive && !reducible then .error .intensiveRequiresReducible
  else if r_hessian && !reducible then .error .hessianRequiresReducible
  else if r_hessian && !r_differentiable then .error .hessianRequiresRDiff
  else .ok {
    name := name
    shape := shape
    output_size := shape.foldl (· * ·) 1
    atomic := atomic
    reducible := reducible
    r_differentiable := r_differentiable
    c_differentiable := c_differentiable
    intensive := intensive
    category := category
    r_hessian := r_hessian
    magnetic := magnetic }

/-- Embeds `check_operation_applied`: bitwise containment of `op` in the
variable's category. -/
def check_operation_applied (v : OutputVariableDef) (op : Nat) : Bool :=
  v.category &&& op == op

/-- Embeds `apply_operation`: REDU and DERV_C may be applied at most once, a
second DERV_R is promoted to _SEC_DERV_R (a third application errors), and any
other operation is unsupported. -/
def apply_operation (v : OutputVariableDef) (op : Nat) : Except OutErr Nat :=
  if op = OP_REDU ∨ op = OP_DERV_C then
    if check_operation_applied v op then .error (.operationApplied op)
    else .ok (v.category ||| op)
  else if op = OP_DERV_R then
    if check_operation_applied v OP_DERV_R then
      if check_operation_applied v OP_SEC_DERV_R then
        .error (.operationAppliedTwice OP_SEC_DERV_R)
      else .ok (v.category ||| OP_SEC_DERV_R)
    else .ok (v.category ||| OP_DERV_R)
  else .error (.operationNotSupported op)

/-- Embeds `check_deriv`. -/
def check_deriv (v : OutputVariableDef) : Bool :=
  check_operation_applied v OP_DERV_R || check_operation_applied v OP_SEC_DERV_R ||
    check_operation_applied v OP_DERV_C

/-- Python-dict assignment `m[k] = v` on an insertion-ordered association list:
an existing key keeps its position and has its value replaced, a new key is
appended at the end. -/
def dinsert {α : Type} (m : List (String × α)) (k : String) (v : α) :
    List (String × α) :=
  if m.any (fun p => p.1 == k) then m.map (fun p => if p.1 == k then (k, v) else p)
  else m ++ [(k, v)]

/-- Python-dict lookup returning an option. -/
def dlookup {α : Type} (m : List (String × α)) (k : String) : Option α :=
  List.lookup k m

/-- Embeds `get_reduce_name`. -/
def get_reduce_name (name : String) : String := name ++ "_redu"

/-- Embeds `get_deriv_name`. -/
def get_deriv_name (name : String) : String × String :=
  (name ++ "_derv_r", name ++ "_derv_c")

/-- Embeds `get_deriv_name_mag`. -/
def get_deriv_name_mag (name : String) : String × String :=
  (name ++ "_derv_r_mag", name ++ "_derv_c_mag")

/-- Embeds `get_hessian_name`. -/
def get_hessian_name (name : String) : String := name ++ "_derv_r_derv_r"

/-- The reduced variable definition emitted by `do_reduce` for entry `(kk, vv)`. -/
def emitted_redu (kk : String) (vv : OutputVariableDef) :
    Except OutErr OutputVariableDef :=
  match apply_operation vv OP_REDU with
  | .error e => .error e
  | .ok cat =>
      mkOutputVariableDef (get_reduce_name kk) vv.shape false false false false
        cat false false false

/-- Embeds the loop of `do_reduce` with an explicit accumulator. -/
def do_reduce_go (acc : List (String × OutputVariableDef)) :
    List (String × OutputVariableDef) →
    Except OutErr (List (String × OutputVariableDef))
  | [] => .ok acc
  | (kk, vv) :: rest =>
    if vv.reducible then
      match emitted_redu kk vv with
      | .error e => .error e
      | .ok d => do_reduce_go (dinsert acc (get_reduce_name kk) d) rest
    else do_reduce_go acc rest

/-- Embeds `do_reduce`. -/
def do_reduce (defs : List (String × OutputVariableDef)) :
    Except OutErr (List (String × OutputVariableDef)) :=
  do_reduce_go [] defs

/-- Embeds the loop of `do_mask` (emission of `mask_mag` for magnetic inputs). -/
def do_mask_go (acc : List (String × OutputVariableDef)) :
    List (String × OutputVariableDef) →
    Except OutErr (List (String × OutputVariableDef))
  | [] => .ok acc
  | (_, vv) :: rest =>
    if vv.magnetic then
      match mkOutputVariableDef "mask_mag" [1] false false false true 0
          false false false with
      | .error e => .error e
      | .ok d => do_mask_go (dinsert acc "mask_mag" d) rest
    else do_mask_go acc rest

/-- Embeds `do_mask`. -/
def do_mask (defs : List (String × OutputVariableDef)) :
    Except OutErr (List (String × OutputVariableDef)) :=
  match mkOutputVariableDef "mask" [1] false false false true 0
      false false false with
  | .error e => .error e
  | .ok d => do_mask_go (dinsert [] "mask" d) defs

/-- The coordinate-derivative definition emitted by `do_derivative` for entry
`(kk, vv)`: shape extended by `[3]`, atomic, and `r_differentiable` only when
the source is a Hessian-eligible true base output. -/
def emitted_derv_r (kk : String) (vv : OutputVariableDef) :
    Except OutErr OutputVariableDef :=
  match apply_operation vv OP_DERV_R with
  | .error e => .error e
  | .ok cat =>
      mkOutputVariableDef (get_deriv_name kk).1 (vv.shape ++ [3]) false
        (vv.r_hessian && vv.category == 0) false true cat false false false

/-- The magnetic coordinate-derivative definition emitted for `(kk, vv)`. -/
def emitted_derv_r_mag (kk : String) (vv : OutputVariableDef) :
    Except OutErr OutputVariableDef :=
  match apply_operation vv OP_DERV_R with
  | .error e => .error e
  | .ok cat =>
      mkOutputVariableDef (get_deriv_name_mag kk).1 (vv.shape ++ [3]) false
        (vv.r_hessian && vv.category == 0) false true cat false true false

/-- The cell-derivative definition emitted for `(kk, vv)`: shape extended by
`[9]`, reducible, atomic. -/
def emitted_derv_c (kk : String) (vv : OutputVariableDef) :
    Except OutErr OutputVariableDef :=
  match apply_operation vv OP_DERV_C with
  | .error e => .error e
  | .ok cat =>
      mkOutputVariableDef (get_deriv_name kk).2 (vv.shape ++ [9]) true
        false false true cat false false false

/-- The magnetic cell-derivative definition emitted for `(kk, vv)`. -/
def emitted_derv_c_mag (kk : String) (vv : OutputVariableDef) :
    Except OutErr OutputVariableDef :=
  match apply_operation vv OP_DERV_C with
  | .error e => .error e
  | .ok cat =>
      mkOutputVariableDef (get_deriv_name_mag kk).2 (vv.shape ++ [9]) true
        false false true cat false true false

/-- The `r_differentiable` branch of one `do_derivative` loop iteration:
inserts `kk_derv_r` (and `kk_derv_r_mag` when magnetic) into the
coordinate-derivative accumulator. -/
def derv_step_r (kk : String) (vv : OutputVariableDef)
    (accr : List (String × OutputVariableDef)) :
    Except OutErr (List (String × OutputVariableDef)) :=
  if vv.r_differentiable then
    match emitted_derv_r kk vv with
    | .error e => .error e
    | .ok d =>
      if vv.magnetic then
        match emitted_derv_r_mag kk vv with
        | .error e => .error e
        | .ok dm =>
            .ok (dinsert (dinsert accr (get_deriv_name kk).1 d)
              (get_deriv_name_mag kk).1 dm)
      else .ok (dinsert accr (get_deriv_name kk).1 d)
  else .ok accr

/-- The `c_differentiable` branch of one `do_derivative` loop iteration:
asserts `r_differentiable`, inserts `kk_derv_c` into the cell-derivative
accumulator, and (when magnetic) `kk_derv_c_mag` into the
coordinate-derivative accumulator — the asymmetry of the source. -/
def derv_step_c (kk : String) (vv : OutputVariableDef)
    (accr accc : List (String × OutputVariableDef)) :
    Except OutErr (List (String × OutputVariableDef) × List (String × OutputVariableDef)) :=
  if vv.c_differentiable then
    if vv.r_differentiable then
      match emitted_derv_c kk vv with
      | .error e => .error e
      | .ok d =>
        if vv.magnetic then
          match emitted_derv_c_mag kk vv with
          | .error e => .error e
          | .ok dm =>
              .ok (dinsert accr (get_deriv_name_mag kk).2 dm,
                dinsert accc (get_deriv_name kk).2 d)
        else .ok (accr, dinsert accc (get_deriv_name kk).2 d)
    else .error .assertFail
  else .ok (accr, accc)

/-- One full `do_derivative` loop iteration over entry `(kk, vv)`. -/
def derv_step (kk : String) (vv : OutputVariableDef)
    (accr accc : List (String × OutputVariableDef)) :
    Except OutErr (List (String × OutputVariableDef) × List (String × OutputVariableDef)) :=
  match derv_step_r kk vv accr with
  | .error e => .error e
  | .ok accr2 => derv_step_c kk vv accr2 accc

/-- Embeds the loop of `do_derivative` with explicit accumulators. -/
def do_derivative_go (accr accc : List (String × OutputVariableDef)) :
    List (String × OutputVariableDef) →
    Except OutErr (List (String × OutputVariableDef) × List (String × OutputVariableDef))
  | [] => .ok (accr, accc)
  | (kk, vv) :: rest =>
    match derv_step kk vv accr accc with
    | .error e => .error e
    | .ok (accr2, accc2) => do_derivative_go accr2 accc2 rest

/-- Embeds `do_derivative`, returning the pair (coordinate-derivative mapping,
cell-derivative mapping). -/
def do_derivative (defs : List (String × OutputVariableDef)) :
    Except OutErr (List (String × OutputVariableDef) × List (String × OutputVariableDef)) :=
  do_derivative_go [] [] defs

/-- Embeds `FittingOutputDef.__init__`: a dict comprehension keyed by variable
name (duplicates overwrite, last wins). -/
def mkFittingOutputDef (l : List OutputVariableDef) :
    List (String × OutputVariableDef) :=
  l.foldl (fun a v => dinsert a v.name v) []

/-- The fields of a constructed `ModelOutputDef` object. -/
structure ModelOutputDef where
  def_outp : List (String × OutputVariableDef)
  def_redu : List (String × OutputVariableDef)
  def_derv_r : List (String × OutputVariableDef)
  def_derv_c : List (String × OutputVariableDef)
  def_hess_r : List (String × OutputVariableDef)
  def_derv_c_redu : List (String × OutputVariableDef)
  def_mask : List (String × OutputVariableDef)
  var_defs : List (String × OutputVariableDef)
  deriving DecidableEq, Repr

/-- Python `dict.update`: insert every entry of `b` into `a` in order. -/
def dupdate {α : Type} (a b : List (String × α)) : List (String × α) :=
  b.foldl (fun m p => dinsert m p.1 p.2) a

/-- Embeds `ModelOutputDef.__init__`: derives the reduced, derivative, Hessian
(second application of `do_derivative` to the coordinate-derivative mapping),
reduced-cell-derivative and mask sub-mappings, then merges them into the flat
`var_defs` mapping in source order (outp, redu, derv_c, derv_r, derv_c_redu,
hess_r, mask). -/
def mkModelOutputDef (fit : List (String × OutputVariableDef)) :
    Except OutErr ModelOutputDef := do
  let redu ← do_reduce fit
  let rc ← do_derivative fit
  let hess ← do_derivative rc.1
  let dcredu ← do_reduce rc.2
  let mask ← do_mask fit
  let vd := dupdate (dupdate (dupdate (dupdate (dupdate (dupdate
    (dupdate [] fit) redu) rc.2) rc.1) dcredu) hess.1) mask
  .ok { def_outp := fit, def_redu := redu, def_derv_r := rc.1,
        def_derv_c := rc.2, def_hess_r := hess.1, def_derv_c_redu := dcredu,
        def_mask := mask, var_defs := vd }

/-- Embeds `ModelOutputDef.keys_outp`. -/
def ModelOutputDef.keys_outp (m : ModelOutputDef) : List String :=
  m.def_outp.map Prod.fst

/-- Embeds `ModelOutputDef.keys_derv_r`. -/
def ModelOutputDef.keys_derv_r (m : ModelOutputDef) : List String :=
  m.def_derv_r.map Prod.fst

/-- Embeds `ModelOutputDef.keys_hess_r`. -/
def ModelOutputDef.keys_hess_r (m : ModelOutputDef) : List String :=
  m.def_hess_r.map Prod.fst

/-- Embeds `ModelOutputDef.keys_redu`. -/
def ModelOutputDef.keys_redu (m : ModelOutputDef) : List String :=
  m.def_redu.map Prod.fst

/-- Embeds `ModelOutputDef.keys_derv_c`. -/
def ModelOutputDef.keys_derv_c (m : ModelOutputDef) : List String :=
  m.def_derv_c.map Prod.fst

/-- Embeds `ModelOutputDef.keys_derv_c_redu`. -/
def ModelOutputDef.keys_derv_c_redu (m : ModelOutputDef) : List String :=
  m.def_derv_c_redu.map Prod.fst

/-- Embeds `ModelOutputDef.keys`. -/
def ModelOutputDef.keys (m : ModelOutputDef) : List String :=
  m.var_defs.map Prod.fst

/-- Embeds `check_shape`: the `assert` on equal lengths (AssertionError),
then the wildcard test on the LAST entry of the defined shape (`def_shape[-1]`,
an IndexError on an empty list), then the positional comparison. -/
def check_shape (shape def_shape : List Int) : Except OutErr Unit :=
  if shape.length ≠ def_shape.length then .error .assertFail
  else if def_shape = [] then .error .indexError
  else if def_shape.getLast? = some (-1) then
    if shape.dropLast ≠ def_shape.dropLast then
      .error (.shapeNotMatching shape.dropLast def_shape.dropLast)
    else .ok ()
  else if shape ≠ def_shape then .error (.shapeNotMatching shape def_shape)
  else .ok ()

/-- Embeds `check_var` (the tensor enters only through its shape): atomic
variables carry two leading dimensions `[nf, nloc]`, per-system variables one
leading dimension `[nf]`; a rank mismatch raises the length-specific
ValueError, otherwise the stripped shape is passed to `check_shape`. -/
def check_var (vshape : List Int) (vd : OutputVariableDef) : Except OutErr Unit :=
  if vd.atomic then
    if vshape.length ≠ vd.shape.length + 2 then
      .error (.lengthNotMatching (vshape.drop 2) vd.shape)
    else check_shape (vshape.drop 2) vd.shape
  else
    if vshape.length ≠ vd.shape.length + 1 then
      .error (.lengthNotMatching (vshape.drop 1) vd.shape)
    else check_shape (vshape.drop 1) vd.shape

/-- Lookup `ret[k]` on a produced result mapping (tensors enter only through
their shapes); a missing key is a Python KeyError. -/
def retGet (ret : List (String × List Int)) (k : String) :
    Except OutErr (List Int) :=
  match dlookup ret k with
  | some v => .ok v
  | none => .error (.keyError k)

/-- Lookup `self.md[kk]` on the flat `var_defs` mapping; a missing key is a
Python KeyError. -/
def mdGet (m : List (String × OutputVariableDef)) (k : String) :
    Except OutErr OutputVariableDef :=
  match dlookup m k with
  | some v => .ok v
  | none => .error (.keyError k)

/-- Check `check_var(ret[key], self.md[key])`: fetch the produced tensor (a
KeyError propagates first, as in the source evaluation order), then its
declared definition, then validate. -/
def checkPair (m : List (String × OutputVariableDef))
    (ret : List (String × List Int)) (key : String) : Except OutErr Unit :=
  match retGet ret key with
  | .error e => .error e
  | .ok rv =>
    match mdGet m key with
    | .error e => .error e
    | .ok rd => check_var rv rd

/-- One iteration of the validation loop of `model_check_output.wrapper.__call__`
for base key `kk`: check the base tensor, then the `_redu` tensor when
reducible, the `_derv_r` tensor when `r_differentiable`, and (after the
`assert dd.r_differentiable`) the `_derv_c` tensor when `c_differentiable`. -/
def checkOneKey (md : ModelOutputDef) (ret : List (String × List Int))
    (kk : String) : Except OutErr Unit :=
  match mdGet md.var_defs kk with
  | .error e => .error e
  | .ok dd =>
    match retGet ret kk with
    | .error e => .error e
    | .ok v =>
      match check_var v dd with
      | .error e => .error e
      | .ok _ =>
        match (if dd.reducible then checkPair md.var_defs ret (get_reduce_name kk)
            else .ok ()) with
        | .error e => .error e
        | .ok _ =>
          match (if dd.r_differentiable then
              checkPair md.var_defs ret (get_deriv_name kk).1
            else .ok ()) with
          | .error e => .error e
          | .ok _ =>
            if dd.c_differentiable then
              if dd.r_differentiable then
                checkPair md.var_defs ret (get_deriv_name kk).2
              else .error .assertFail
            else .ok ()

/-- The validation loop of the model-level wrapper over a list of base keys. -/
def checkKeys (md : ModelOutputDef) (ret : List (String × List Int)) :
    List String → Except OutErr Unit
  | [] => .ok ()
  | kk :: rest =>
    match checkOneKey md ret kk with
    | .error e => .error e
    | .ok _ => checkKeys md ret rest

/-- Embeds `model_check_output.wrapper.__call__` applied to the result mapping
`ret` produced by the wrapped call: on validation failure the error propagates
to the outer caller, on success the wrapped call's result is returned
unchanged. -/
def model_check_output_call (md : ModelOutputDef)
    (ret : List (String × List Int)) :
    Except OutErr (List (String × List Int)) :=
  match checkKeys md ret md.keys_outp with
  | .error e => .error e
  | .ok _ => .ok ret

/-- Embeds `fitting_check_output.wrapper.__call__` applied to the result
mapping `ret`: every declared fitting key is checked against its definition. -/
def fitting_check_output_call (fd : List (String × OutputVariableDef))
    (ret : List (String × List Int)) :
    Except OutErr (List (String × List Int)) :=
  match (fd.map Prod.fst).foldlM
      (fun _ kk => do
        let dd ← mdGet fd kk
        let v ← retGet ret kk
        check_var v dd) () with
  | .error e => .error e
  | .ok _ => .ok ret

/-! Concrete schema instances taken from the repository. -/

/-- The `energy` base variable of the spec's worked example: shape `[1]`,
reducible, r- and c-differentiable, atomic, all remaining flags defaulted. -/
def energyFitting : Except OutErr (List (String × OutputVariableDef)) :=
  match mkOutputVariableDef "energy" [1] true true true true 0 false false false with
  | .error e => .error e
  | .ok v => .ok (mkFittingOutputDef [v])

/-- The `ModelOutputDef` built from `energyFitting`. -/
def energyModel : Except OutErr ModelOutputDef :=
  match energyFitting with
  | .error e => .error e
  | .ok fd => mkModelOutputDef fd

/-- The same base variable with `r_hessian := true`. -/
def energyHessFitting : Except OutErr (List (String × OutputVariableDef)) :=
  match mkOutputVariableDef "energy" [1] true true true true 0 true false false with
  | .error e => .error e
  | .ok v => .ok (mkFittingOutputDef [v])

/-- The `ModelOutputDef` built from `energyHessFitting`. -/
def energyHessModel : Except OutErr ModelOutputDef :=
  match energyHessFitting with
  | .error e => .error e
  | .ok fd => mkModelOutputDef fd

/-- Embeds `DeepDOS.output_def` (`deepmd/infer/deep_dos.py`): a single base
variable `dos` of shape `[-1]`, reducible and atomic, fed through
`ModelOutputDef`. -/
def deepDOSOutputDef : Except OutErr ModelOutputDef :=
  match mkOutputVariableDef "dos" [-1] true false false true 0 false false false with
  | .error e => .error e
  | .ok v => mkModelOutputDef (mkFittingOutputDef [v])

/-- Key list of the flat `var_defs` mapping of a model schema, `none` when
construction failed. -/
def modelKeys (e : Except OutErr ModelOutputDef) : Option (List String) :=
  e.toOption.map (fun m => m.var_defs.map Prod.fst)

/-- Lookup of one variable definition in the flat `var_defs` mapping of a model
schema, `none` when construction failed or the key is absent. -/
def modelLookup (e : Except OutErr ModelOutputDef) (k : String) :
    Option OutputVariableDef :=
  e.toOption.bind (fun m => dlookup m.var_defs k)

/-- Key list of the Hessian sub-mapping of a model schema. -/
def modelHessKeys (e : Except OutErr ModelOutputDef) : Option (List String) :=
  e.toOption.map (fun m => m.def_hess_r.map Prod.fst)

/-- Sample variable whose category carries exactly the DERV_R bit. -/
def vCat2 : OutputVariableDef :=
  ⟨"x_derv_r", [1, 3], 3, true, false, false, false, false, 2, false, false⟩

/-- Sample variable whose category carries both DERV_R and _SEC_DERV_R. -/
def vCat10 : OutputVariableDef :=
  ⟨"x_derv_r_derv_r", [1, 3, 3], 9, true, false, false, false, false, 10, false, false⟩

/-- Sample Hessian-eligible base variable (`r_hessian`, category OUT). -/
def vHessBase : OutputVariableDef :=
  ⟨"e", [1], 1, true, true, true, true, false, 0, true, false⟩

/-- The coordinate-derivative definition `do_derivative` emits for `vHessBase`. -/
def dHessDerived : OutputVariableDef :=
  ⟨"e_derv_r", [1, 3], 3, true, false, true, false, false, 2, false, false⟩

/-- Sample atomic variable of shape `[1]` (the shape of the `mask` output). -/
def maskVar : OutputVariableDef :=
  ⟨"mask", [1], 1, true, false, false, false, false, 0, false, false⟩

/-- The constructed `energy` variable definition of the spec's worked example. -/
def eW : OutputVariableDef :=
  ⟨"energy", [1], 1, true, true, true, true, false, 0, false, false⟩

/-- A minimal model schema exposing `energy` as its only base key. -/
def mdW : ModelOutputDef :=
  ⟨[("energy", eW)], [], [], [], [], [], [], [("energy", eW)]⟩

/-- A magnetic variant of the `energy` base variable (`magnetic := true`). -/
def energyMagModel : Except OutErr ModelOutputDef :=
  match mkOutputVariableDef "energy" [1] true true true true 0 false true false with
  | .error e => .error e
  | .ok v => mkModelOutputDef (mkFittingOutputDef [v])

/-- The constructed magnetic `energy` variable definition. -/
def eMag : OutputVariableDef :=
  ⟨"energy", [1], 1, true, true, true, true, false, 0, false, true⟩

/-- The derivative pass over the singleton magnetic-energy schema. -/
def ddMag : Except OutErr
    (List (String × OutputVariableDef) × List (String × OutputVariableDef)) :=
  do_derivative [("energy", eMag)]

/-- Coordinate-derivative mapping produced by `ddMag`. -/
def drW : List (String × OutputVariableDef) := (ddMag.toOption.getD ([], [])).1

/-- Cell-derivative mapping produced by `ddMag`. -/
def dcW : List (String × OutputVariableDef) := (ddMag.toOption.getD ([], [])).2

/-! ## Helper lemmas about dictionary insertion, lookup and bit flags -/

theorem lookup_map_replace {α : Type} (m : List (String × α)) (k : String) (v : α)
    (h : m.any (fun p => p.1 == k) = true) :
    List.lookup k (m.map (fun p => if p.1 == k then (k, v) else p)) = some v := by
  induction m with
  | nil => simp at h
  | cons p t ih =>
    obtain ⟨a, b⟩ := p
    cases hp : (a == k)
    · have ht : t.any (fun q => q.1 == k) = true := by
        simp only [List.any_cons, hp, Bool.false_or] at h
        exact h
      have hk : (k == a) = false := by
        rw [beq_eq_false_iff_ne] at hp ⊢
        exact fun he => hp he.symm
      simp only [List.map_cons, hp, Bool.false_eq_true, if_false, List.lookup_cons, hk]
      exact ih ht
    · have hpk : a = k := by simpa using hp
      subst hpk
      simp [List.lookup_cons]

theorem lookup_append_single {α : Type} (m : List (String × α)) (k : String) (v : α)
    (h : m.any (fun p => p.1 == k) = false) :
    List.lookup k (m ++ [(k, v)]) = some v := by
  induction m with
  | nil => simp [List.lookup]
  | cons p t ih =>
    obtain ⟨a, b⟩ := p
    simp only [List.any_cons, Bool.or_eq_false_iff] at h
    have hk : (k == a) = false := by
      rw [beq_eq_false_iff_ne]
      intro he
      exact absurd he.symm (by simpa using h.1)
    simp only [List.cons_append, List.lookup_cons, hk]
    exact ih h.2

theorem dlookup_dinsert_self {α : Type} (m : List (String × α)) (k : String) (v : α) :
    dlookup (dinsert m k v) k = some v := by
  unfold dinsert dlookup
  by_cases h : m.any (fun p => p.1 == k)
  · simp only [h, if_true]
    exact lookup_map_replace m k v h
  · simp only [h, if_false]
    exact lookup_append_single m k v (Bool.of_not_eq_true h)

theorem lookup_map_replace_ne {α : Type} (m : List (String × α)) (k k' : String) (v : α)
    (h : k' ≠ k) :
    List.lookup k' (m.map (fun p => if p.1 == k then (k, v) else p)) =
      List.lookup k' m := by
  induction m with
  | nil => rfl
  | cons p t ih =>
    obtain ⟨a, b⟩ := p
    cases hp : (a == k)
    · simp only [List.map_cons, hp, Bool.false_eq_true, if_false, List.lookup_cons]
      cases hkk : k' == a
      · exact ih
      · rfl
    · have hpk : a = k := by simpa using hp
      have hk1 : (k' == k) = false := by simpa using h
      have hk2 : (k' == a) = false := by rw [hpk]; exact hk1
      simp only [List.map_cons, hp, if_true, List.lookup_cons, hk1, hk2]
      exact ih

theorem lookup_append_single_ne {α : Type} (m : List (String × α)) (k k' : String)
    (v : α) (h : k' ≠ k) :
    List.lookup k' (m ++ [(k, v)]) = List.lookup k' m := by
  induction m with
  | nil =>
    have hk : (k' == k) = false := by simpa using h
    simp [List.lookup, hk]
  | cons p t ih =>
    obtain ⟨a, b⟩ := p
    simp only [List.cons_append, List.lookup_cons]
    cases hkk : k' == a
    · exact ih
    · rfl

theorem dlookup_dinsert_ne {α : Type} (m : List (String × α)) (k k' : String) (v : α)
    (h : k' ≠ k) : dlookup (dinsert m k v) k' = dlookup m k' := by
  unfold dinsert dlookup
  by_cases hm : m.any (fun p => p.1 == k)
  · simp only [hm, if_true]
    exact lookup_map_replace_ne m k k' v h
  · simp only [hm, if_false]
    exact lookup_append_single_ne m k k' v h

theorem mem_dinsert {α : Type} (m : List (String × α)) (k : String) (v : α)
    (p : String × α) (h : p ∈ dinsert m k v) : p ∈ m ∨ p.1 = k := by
  unfold dinsert at h
  by_cases hm : m.any (fun q => q.1 == k)
  · simp only [hm, if_true, List.mem_map] at h
    obtain ⟨q, hq, hqe⟩ := h
    by_cases hqk : (q.1 == k) = true
    · right
      simp only [hqk, if_true] at hqe
      rw [← hqe]
    · left
      simp only [hqk, if_false] at hqe
      rw [← hqe]
      exact hq
  · simp only [hm, if_false] at h
    rcases List.mem_append.mp h with h1 | h1
    · exact Or.inl h1
    · right
      rw [List.mem_singleton.mp h1]

theorem lookup_eq_none_of_all_ne {α : Type} (m : List (String × α)) (k : String)
    (h : ∀ p ∈ m, p.1 ≠ k) : List.lookup k m = none := by
  induction m with
  | nil => rfl
  | cons p t ih =>
    obtain ⟨a, b⟩ := p
    have hk : (k == a) = false := by
      rw [beq_eq_false_iff_ne]
      exact fun he => h (a, b) (List.mem_cons_self _ t) he.symm
    simp only [List.lookup_cons, hk]
    exact ih fun q hq => h q (List.mem_cons_of_mem _ hq)

theorem string_append_ne_of_getLast (a b s t : String)
    (hs : s.data ≠ []) (ht : t.data ≠ [])
    (h : s.data.getLast? ≠ t.data.getLast?) : a ++ s ≠ b ++ t := by
  intro he
  have hd : a.data ++ s.data = b.data ++ t.data := by
    rw [← String.data_append, ← String.data_append, he]
  obtain ⟨x, hx⟩ := Option.isSome_iff_exists.mp (List.getLast?_isSome.mpr hs)
  obtain ⟨y, hy⟩ := Option.isSome_iff_exists.mp (List.getLast?_isSome.mpr ht)
  have h1 : (a.data ++ s.data).getLast? = some x := by
    rw [List.getLast?_append, hx]
    rfl
  have h2 : (b.data ++ t.data).getLast? = some y := by
    rw [List.getLast?_append, hy]
    rfl
  rw [hd, h2] at h1
  apply h
  rw [hx, hy, h1]

theorem string_append_inj_suffix (a b s t : String)
    (hlen : s.data.length = t.data.length) (h : a ++ s = b ++ t) : s = t := by
  have hd : a.data ++ s.data = b.data ++ t.data := by
    rw [← String.data_append, ← String.data_append, h]
  exact String.ext (List.append_inj' hd hlen).2

theorem string_append_right_cancel (a b s : String) (h : a ++ s = b ++ s) : a = b := by
  have hd : a.data ++ s.data = b.data ++ s.data := by
    rw [← String.data_append, ← String.data_append, h]
  exact String.ext (List.append_inj' hd rfl).1

theorem ne_dcmag_dr (a b : String) : a ++ "_derv_c_mag" ≠ b ++ "_derv_r" :=
  string_append_ne_of_getLast a b _ _ (by decide) (by decide) (by decide)

theorem ne_dcmag_drmag (a b : String) : a ++ "_derv_c_mag" ≠ b ++ "_derv_r_mag" := by
  intro h
  have hst := string_append_inj_suffix a b "_derv_c_mag" "_derv_r_mag" (by decide) h
  exact absurd hst (by decide)

theorem ne_dcmag_dc (a b : String) : a ++ "_derv_c_mag" ≠ b ++ "_derv_c" :=
  string_append_ne_of_getLast a b _ _ (by decide) (by decide) (by decide)

theorem ne_dc_dr (a b : String) : a ++ "_derv_c" ≠ b ++ "_derv_r" :=
  string_append_ne_of_getLast a b _ _ (by decide) (by decide) (by decide)

theorem ne_dc_drmag (a b : String) : a ++ "_derv_c" ≠ b ++ "_derv_r_mag" :=
  string_append_ne_of_getLast a b _ _ (by decide) (by decide) (by decide)

theorem ne_dc_dcmag (a b : String) : a ++ "_derv_c" ≠ b ++ "_derv_c_mag" :=
  string_append_ne_of_getLast a b _ _ (by decide) (by decide) (by decide)

theorem and_or_absorb (a b c : Nat) (h : a &&& c = c) : (a ||| b) &&& c = c := by
  apply Nat.eq_of_testBit_eq
  intro i
  rw [Nat.testBit_and, Nat.testBit_or]
  have ht := congrArg (fun n => n.testBit i) h
  simp only [Nat.testBit_and] at ht
  cases hc : c.testBit i
  · simp
  · rw [hc] at ht
    simp only [Bool.and_true] at ht
    simp [ht, hc]

/-! ## Claim theorems -/

/-- C1: for a fitting schema holding the single base variable `energy` with
shape `[1]`, `reducible`, `r_differentiable`, `c_differentiable`, `atomic` and
all other flags defaulted, `ModelOutputDef` succeeds and its flat `var_defs`
mapping has exactly the keys `energy, energy_redu, energy_derv_c,
energy_derv_r, energy_derv_c_redu, mask` (listed in merge order; as a set this
is the claimed key set, with no Hessian key and no magnetic key). -/
theorem claim_C1 :
    modelKeys energyModel =
      some ["energy", "energy_redu", "energy_derv_c", "energy_derv_r",
        "energy_derv_c_redu", "mask"] ∧
    (∃ l, modelKeys energyModel = some l ∧
      l.Perm ["energy", "energy_redu", "energy_derv_r", "energy_derv_c",
        "energy_derv_c_redu", "mask"]) :=
  ⟨rfl, _, rfl, by decide⟩

/-- C2 counterexample: the claim asserts `check_shape([4,5],[-1,5])` succeeds,
but the code only honors the wildcard in the LAST position of the defined
shape (`def_shape[-1] == -1`); `[-1,5]` has last entry `5`, so the exact
comparison runs and raises. -/
theorem claim_C2_counterexample :
    check_shape [4, 5] [-1, 5] = .error (.shapeNotMatching [4, 5] [-1, 5]) := by
  rfl

/-- C2 amended: `check_shape([4,5],[4,-1])` (wildcard in last position)
succeeds while `check_shape([4,5],[-1,5])` fails; `[4,5]` vs `[3,5]` fails and
`[4]` vs `[4,5]` fails the length assertion; in general, for a non-empty
expected shape, success holds iff the lengths match and either the last
expected entry is the wildcard `-1` and all entries but the last match
positionally, or the last entry is not the wildcard and the shapes match
exactly. -/
theorem claim_C2 :
    check_shape [4, 5] [4, -1] = .ok () ∧
    check_shape [4, 5] [-1, 5] = .error (.shapeNotMatching [4, 5] [-1, 5]) ∧
    check_shape [4, 5] [3, 5] = .error (.shapeNotMatching [4, 5] [3, 5]) ∧
    check_shape [4] [4, 5] = .error .assertFail ∧
    ∀ (shape ds : List Int) (l : Int), ds.getLast? = some l →
      (check_shape shape ds = .ok () ↔
        shape.length = ds.length ∧
          ((l = -1 ∧ shape.dropLast = ds.dropLast) ∨ (l ≠ -1 ∧ shape = ds))) := by
  refine ⟨rfl, rfl, rfl, rfl, ?_⟩
  intro shape ds l hl
  have hne : ds ≠ [] := by
    intro he
    rw [he] at hl
    exact Option.noConfusion hl
  unfold check_shape
  by_cases hlen : shape.length = ds.length
  · rw [if_neg (by simp [hlen]), if_neg hne]
    by_cases hw : l = -1
    · rw [if_pos (by rw [hl, hw])]
      by_cases hdl : shape.dropLast = ds.dropLast
      · rw [if_neg (by simp [hdl])]
        simp [hlen, hw, hdl]
      · rw [if_pos hdl]
        simp [hdl, hw]
    · rw [if_neg (by rw [hl]; simp [hw])]
      by_cases heq : shape = ds
      · rw [if_neg (by simp [heq])]
        simp [hlen, heq, hw]
      · rw [if_pos heq]
        simp [heq, hw]
  · rw [if_pos hlen]
    simp [hlen]

/-- C2 witness: the general characterization applied at a concrete wildcard
input. -/
theorem claim_C2_witness : check_shape [2, 7] [2, -1] = Except.ok () :=
  (claim_C2.2.2.2.2 [2, 7] [2, -1] (-1) rfl).mpr (by decide)

/-- C3: with `r_hessian := true` on the same `energy` base variable, the
Hessian sub-mapping (obtained by feeding the derived coordinate-derivative
mapping through `do_derivative` a second time) holds exactly
`energy_derv_r_derv_r` with shape `[1,3,3]`; without `r_hessian` the Hessian
sub-mapping is empty; and in general the first derivative emitted for a source
variable carries `r_differentiable` exactly when the source has `r_hessian`
and category `OUT` (so ineligible first derivatives stop the recursion). -/
theorem claim_C3 :
    modelHessKeys energyHessModel = some ["energy_derv_r_derv_r"] ∧
    (modelLookup energyHessModel "energy_derv_r_derv_r").map OutputVariableDef.shape =
      some [1, 3, 3] ∧
    modelHessKeys energyModel = some [] ∧
    (∀ (kk : String) (vv d : OutputVariableDef), emitted_derv_r kk vv = .ok d →
      d.r_differentiable = (vv.r_hessian && vv.category == 0)) ∧
    (∀ (kk : String) (vv d : OutputVariableDef), emitted_derv_r_mag kk vv = .ok d →
      d.r_differentiable = (vv.r_hessian && vv.category == 0)) := by
  refine ⟨rfl, rfl, rfl, ?_, ?_⟩
  · intro kk vv d h
    unfold emitted_derv_r at h
    cases ha : apply_operation vv OP_DERV_R with
    | error e =>
      rw [ha] at h
      exact absurd h (by simp)
    | ok cat =>
      rw [ha] at h
      injection h with h2
      rw [← h2]
  · intro kk vv d h
    unfold emitted_derv_r_mag at h
    cases ha : apply_operation vv OP_DERV_R with
    | error e =>
      rw [ha] at h
      exact absurd h (by simp)
    | ok cat =>
      rw [ha] at h
      injection h with h2
      rw [← h2]

/-- C3 witness: the general first-derivative flag rule applied to the concrete
Hessian-eligible `energy`-like base variable. -/
theorem claim_C3_witness :
    dHessDerived.r_differentiable = (vHessBase.r_hessian && vHessBase.category == 0) :=
  claim_C3.2.2.2.1 "e" vHessBase dHessDerived rfl

/-- C4: `OutputVariableDef` construction fails precisely when one of the four
flag invariants is violated (`c_differentiable ⇒ r_differentiable`,
`reducible ⇒ atomic`, `intensive ⇒ reducible`,
`r_hessian ⇒ reducible ∧ r_differentiable`), and on success the `size`
property is the product of the shape entries. -/
theorem claim_C4 : ∀ (name : String) (shape : List Int)
    (red rdiff cdiff atomic rhess mag intensive : Bool) (cat : Nat),
    ((∃ v, mkOutputVariableDef name shape red rdiff cdiff atomic cat rhess mag
        intensive = .ok v) ↔
      ((cdiff = true → rdiff = true) ∧ (red = true → atomic = true) ∧
        (intensive = true → red = true) ∧
        (rhess = true → red = true ∧ rdiff = true))) ∧
    (∀ v, mkOutputVariableDef name shape red rdiff cdiff atomic cat rhess mag
        intensive = .ok v →
      v.size = shape.foldl (· * ·) 1) := by
  intro name shape red rdiff cdiff atomic rhess mag intensive cat
  constructor
  · cases red <;> cases rdiff <;> cases cdiff <;> cases atomic <;> cases rhess <;>
      cases intensive <;> simp [mkOutputVariableDef]
  · intro v hv
    unfold mkOutputVariableDef at hv
    split_ifs at hv <;>
      first
        | (injection hv with h2; rw [← h2]; rfl)
        | exact Except.noConfusion hv

/-- C4 witness: a fully valid flag combination constructs successfully. -/
theorem claim_C4_witness :
    ∃ v, mkOutputVariableDef "energy" [1] true true true true 0 false false
      false = Except.ok v :=
  (claim_C4 "energy" [1] true true true true false false false 0).1.mpr (by decide)

/-- C5: `apply_operation` promotes a second DERV_R to _SEC_DERV_R, errors on a
third coordinate derivative, errors on a repeated REDU or DERV_C (returning
the bitwise-or otherwise), and rejects any other operation as unsupported. -/
theorem claim_C5 : ∀ (v : OutputVariableDef),
    (check_operation_applied v OP_DERV_R = true →
      check_operation_applied v OP_SEC_DERV_R = false →
      apply_operation v OP_DERV_R = .ok (v.category ||| OP_SEC_DERV_R)) ∧
    (check_operation_applied v OP_DERV_R = true →
      check_operation_applied v OP_SEC_DERV_R = true →
      apply_operation v OP_DERV_R = .error (.operationAppliedTwice OP_SEC_DERV_R)) ∧
    (∀ op, op = OP_REDU ∨ op = OP_DERV_C →
      (check_operation_applied v op = true →
        apply_operation v op = .error (.operationApplied op)) ∧
      (check_operation_applied v op = false →
        apply_operation v op = .ok (v.category ||| op))) ∧
    (∀ op, op ≠ OP_REDU → op ≠ OP_DERV_R → op ≠ OP_DERV_C →
      apply_operation v op = .error (.operationNotSupported op)) := by
  intro v
  refine ⟨?_, ?_, ?_, ?_⟩
  · intro h1 h2
    unfold apply_operation
    rw [if_neg (by decide), if_pos rfl, if_pos h1, if_neg (by simp [h2])]
  · intro h1 h2
    unfold apply_operation
    rw [if_neg (by decide), if_pos rfl, if_pos h1, if_pos h2]
  · intro op hop
    constructor
    · intro h
      unfold apply_operation
      rw [if_pos hop, if_pos h]
    · intro h
      unfold apply_operation
      rw [if_pos hop, if_neg (by simp [h])]
  · intro op h1 h2 h3
    unfold apply_operation
    rw [if_neg (fun hc => hc.elim h1 h3), if_neg h2]

/-- C5 witness: the promotion and error branches at concrete categories. -/
theorem claim_C5_witness :
    apply_operation vCat2 OP_DERV_R = .ok (vCat2.category ||| OP_SEC_DERV_R) ∧
    apply_operation vCat10 OP_DERV_R =
      .error (.operationAppliedTwice OP_SEC_DERV_R) ∧
    apply_operation vCat2 OP_REDU = .ok (vCat2.category ||| OP_REDU) ∧
    apply_operation vCat2 OP_MAG = .error (.operationNotSupported OP_MAG) :=
  ⟨(claim_C5 vCat2).1 rfl rfl,
   (claim_C5 vCat10).2.1 rfl rfl,
   ((claim_C5 vCat2).2.2.1 OP_REDU (Or.inl rfl)).2 rfl,
   (claim_C5 vCat2).2.2.2 OP_MAG (by decide) (by decide) (by decide)⟩

theorem checkKeys_ok (md : ModelOutputDef) (ret : List (String × List Int)) :
    ∀ (keys : List String) (u : Unit), checkKeys md ret keys = .ok u →
      ∀ kk ∈ keys, ∃ w, checkOneKey md ret kk = .ok w := by
  intro keys
  induction keys with
  | nil =>
    intro u h kk hm
    exact absurd hm (List.not_mem_nil kk)
  | cons k rest ih =>
    intro u h kk hm
    unfold checkKeys at h
    cases hc : checkOneKey md ret k with
    | error e =>
      rw [hc] at h
      exact Except.noConfusion h
    | ok w =>
      rw [hc] at h
      rcases List.mem_cons.mp hm with rfl | hm2
      · exact ⟨w, hc⟩
      · exact ih u h kk hm2

theorem checkOneKey_missing_derv_c (md : ModelOutputDef)
    (ret : List (String × List Int)) (kk : String) (dd : OutputVariableDef)
    (hdd : dlookup md.var_defs kk = some dd)
    (hc : dd.c_differentiable = true)
    (hnone : dlookup ret (get_deriv_name kk).2 = none) :
    ∀ w, checkOneKey md ret kk ≠ .ok w := by
  intro w h
  unfold checkOneKey at h
  rw [show mdGet md.var_defs kk = Except.ok dd from by unfold mdGet; rw [hdd]] at h
  dsimp only at h
  cases hv : retGet ret kk with
  | error e =>
    rw [hv] at h
    exact Except.noConfusion h
  | ok v =>
    rw [hv] at h
    dsimp only at h
    cases hcv : check_var v dd with
    | error e =>
      rw [hcv] at h
      exact Except.noConfusion h
    | ok u =>
      rw [hcv] at h
      dsimp only at h
      cases hred : (if dd.reducible then
          checkPair md.var_defs ret (get_reduce_name kk) else Except.ok ()) with
      | error e =>
        rw [hred] at h
        exact Except.noConfusion h
      | ok u2 =>
        rw [hred] at h
        dsimp only at h
        cases hrd : (if dd.r_differentiable then
            checkPair md.var_defs ret (get_deriv_name kk).1 else Except.ok ()) with
        | error e =>
          rw [hrd] at h
          exact Except.noConfusion h
        | ok u3 =>
          rw [hrd] at h
          dsimp only at h
          rw [if_pos hc] at h
          cases hrdiff : dd.r_differentiable with
          | false =>
            rw [if_neg (by simp [hrdiff])] at h
            exact Except.noConfusion h
          | true =>
            rw [if_pos hrdiff] at h
            unfold checkPair at h
            rw [show retGet ret (get_deriv_name kk).2 =
                Except.error (OutErr.keyError (get_deriv_name kk).2) from by
              unfold retGet; rw [hnone]] at h
            exact Except.noConfusion h

/-- C7: the model-level output-checking wrapper returns the wrapped call's
result unchanged on success, and whenever some base key's definition is
`c_differentiable` but the produced result mapping lacks the corresponding
`_derv_c` entry, the call does not return a result (the error propagates to
the outer caller). -/
theorem claim_C7 : ∀ (md : ModelOutputDef) (ret : List (String × List Int)),
    (∀ r, model_check_output_call md ret = .ok r → r = ret) ∧
    (∀ (kk : String) (dd : OutputVariableDef), kk ∈ md.keys_outp →
      dlookup md.var_defs kk = some dd → dd.c_differentiable = true →
      dlookup ret (get_deriv_name kk).2 = none →
      ∀ r, model_check_output_call md ret ≠ .ok r) := by
  intro md ret
  constructor
  · intro r h
    unfold model_check_output_call at h
    cases hck : checkKeys md ret md.keys_outp with
    | error e =>
      rw [hck] at h
      exact Except.noConfusion h
    | ok u =>
      rw [hck] at h
      injection h with h2
      exact h2.symm
  · intro kk dd hmem hdd hc hnone r h
    unfold model_check_output_call at h
    cases hck : checkKeys md ret md.keys_outp with
    | error e =>
      rw [hck] at h
      exact Except.noConfusion h
    | ok u =>
      obtain ⟨w, hw⟩ := checkKeys_ok md ret md.keys_outp u hck kk hmem
      exact checkOneKey_missing_derv_c md ret kk dd hdd hc hnone w hw

/-- C7 witness: a producer returning an empty result mapping for a schema with
a `c_differentiable` base key is rejected. -/
theorem claim_C7_witness : model_check_output_call mdW [] ≠ .ok [] :=
  (claim_C7 mdW []).2 "energy" eW (by decide) rfl rfl rfl []

/-- C8: `check_var` demands rank `len(shape)+2` for atomic variables and
`len(shape)+1` for per-system variables, failing with the length-specific
error on a rank mismatch and delegating the stripped shape to `check_shape`
otherwise; `check_shape` itself never produces the length-specific error, so
the two failure kinds are distinct. -/
theorem claim_C8 : ∀ (vshape : List Int) (vd : OutputVariableDef),
    (vd.atomic = true → vshape.length ≠ vd.shape.length + 2 →
      check_var vshape vd = .error (.lengthNotMatching (vshape.drop 2) vd.shape)) ∧
    (vd.atomic = true → vshape.length = vd.shape.length + 2 →
      check_var vshape vd = check_shape (vshape.drop 2) vd.shape) ∧
    (vd.atomic = false → vshape.length ≠ vd.shape.length + 1 →
      check_var vshape vd = .error (.lengthNotMatching (vshape.drop 1) vd.shape)) ∧
    (vd.atomic = false → vshape.length = vd.shape.length + 1 →
      check_var vshape vd = check_shape (vshape.drop 1) vd.shape) ∧
    (∀ (s ds g ex : List Int), check_shape s ds ≠ .error (.lengthNotMatching g ex)) := by
  intro vshape vd
  refine ⟨?_, ?_, ?_, ?_, ?_⟩
  · intro ha hl
    unfold check_var
    rw [if_pos ha, if_pos hl]
  · intro ha hl
    unfold check_var
    rw [if_pos ha, if_neg (by simp [hl])]
  · intro ha hl
    unfold check_var
    rw [if_neg (by simp [ha]), if_pos hl]
  · intro ha hl
    unfold check_var
    rw [if_neg (by simp [ha]), if_neg (by simp [hl])]
  · intro s ds g ex h
    unfold check_shape at h
    split_ifs at h <;> simp at h

/-- C8 witness: a rank-1 tensor against an atomic shape-`[1]` definition
(which expects rank 3) fails with the length-specific error. -/
theorem claim_C8_witness :
    check_var [4] maskVar = .error (.lengthNotMatching [] [1]) :=
  (claim_C8 [4] maskVar).1 rfl (by decide)

/-- C9: whenever `apply_operation` succeeds, the returned category contains
every bit of the input category, so `check_operation_applied` stays true for
every operation that held before. -/
theorem claim_C9 : ∀ (v : OutputVariableDef) (op newcat : Nat),
    apply_operation v op = .ok newcat →
    ∀ o : Nat, check_operation_applied v o = true →
      check_operation_applied { v with category := newcat } o = true := by
  intro v op newcat h o ho
  simp only [check_operation_applied, beq_iff_eq] at ho ⊢
  show newcat &&& o = o
  unfold apply_operation at h
  split_ifs at h <;>
    first
      | (injection h with h2; rw [← h2]; exact and_or_absorb _ _ _ ho)
      | exact Except.noConfusion h

/-- C9 witness: applying REDU to a category-2 variable keeps DERV_R applied. -/
theorem claim_C9_witness :
    check_operation_applied { vCat2 with category := 3 } OP_DERV_R = true :=
  claim_C9 vCat2 OP_REDU 3 rfl OP_DERV_R rfl

/-- C10: construction accepts a wildcard shape entry without validation (for
any shape, the DOS flag combination constructs successfully and `output_size`
is the signed product of the entries), and the `dos` variable of
`DeepDOS.output_def`, declared with shape `[-1]`, has size `-1`. -/
theorem claim_C10 :
    (∀ shape : List Int, ∃ v,
      mkOutputVariableDef "dos" shape true false false true 0 false false
        false = .ok v ∧
      v.output_size = shape.foldl (· * ·) 1) ∧
    (modelLookup deepDOSOutputDef "dos").map OutputVariableDef.size = some (-1) := by
  constructor
  · intro shape
    exact ⟨_, rfl, rfl⟩
  · rfl

theorem derv_step_r_lookup (kk : String) (vv : OutputVariableDef)
    (accr accr2 : List (String × OutputVariableDef))
    (h : derv_step_r kk vv accr = .ok accr2) (key : String)
    (h1 : key ≠ kk ++ "_derv_r") (h2 : key ≠ kk ++ "_derv_r_mag") :
    dlookup accr2 key = dlookup accr key := by
  unfold derv_step_r at h
  cases hrd : vv.r_differentiable with
  | false =>
    rw [if_neg (by simp [hrd])] at h
    injection h with h3
    rw [← h3]
  | true =>
    rw [if_pos hrd] at h
    cases he : emitted_derv_r kk vv with
    | error e =>
      rw [he] at h
      exact Except.noConfusion h
    | ok d =>
      rw [he] at h
      dsimp only at h
      cases hm : vv.magnetic with
      | false =>
        rw [if_neg (by simp [hm])] at h
        injection h with h3
        rw [← h3]
        exact dlookup_dinsert_ne _ _ _ _ h1
      | true =>
        rw [if_pos hm] at h
        cases hem : emitted_derv_r_mag kk vv with
        | error e =>
          rw [hem] at h
          exact Except.noConfusion h
        | ok dm =>
          rw [hem] at h
          injection h with h3
          rw [← h3]
          exact (dlookup_dinsert_ne _ _ _ _ h2).trans
            (dlookup_dinsert_ne _ _ _ _ h1)

theorem derv_step_c_lookup (kk : String) (vv : OutputVariableDef)
    (accr accc : List (String × OutputVariableDef))
    (rc : List (String × OutputVariableDef) × List (String × OutputVariableDef))
    (h : derv_step_c kk vv accr accc = .ok rc) (key key2 : String)
    (h1 : key ≠ kk ++ "_derv_c_mag") (h2 : key2 ≠ kk ++ "_derv_c") :
    dlookup rc.1 key = dlookup accr key ∧ dlookup rc.2 key2 = dlookup accc key2 := by
  unfold derv_step_c at h
  cases hc : vv.c_differentiable with
  | false =>
    rw [if_neg (by simp [hc])] at h
    injection h with h3
    rw [← h3]
    exact ⟨rfl, rfl⟩
  | true =>
    rw [if_pos hc] at h
    cases hr : vv.r_differentiable with
    | false =>
      rw [if_neg (by simp [hr])] at h
      exact Except.noConfusion h
    | true =>
      rw [if_pos hr] at h
      cases he : emitted_derv_c kk vv with
      | error e =>
        rw [he] at h
        exact Except.noConfusion h
      | ok d =>
        rw [he] at h
        dsimp only at h
        cases hm : vv.magnetic with
        | false =>
          rw [if_neg (by simp [hm])] at h
          injection h with h3
          rw [← h3]
          exact ⟨rfl, dlookup_dinsert_ne _ _ _ _ h2⟩
        | true =>
          rw [if_pos hm] at h
          cases hem : emitted_derv_c_mag kk vv with
          | error e =>
            rw [hem] at h
            exact Except.noConfusion h
          | ok dm =>
            rw [hem] at h
            injection h with h3
            rw [← h3]
            exact ⟨dlookup_dinsert_ne _ _ _ _ h1, dlookup_dinsert_ne _ _ _ _ h2⟩

theorem derv_step_lookup (kk : String) (vv : OutputVariableDef)
    (accr accc : List (String × OutputVariableDef))
    (rc : List (String × OutputVariableDef) × List (String × OutputVariableDef))
    (h : derv_step kk vv accr accc = .ok rc) (key key2 : String)
    (h1 : key ≠ kk ++ "_derv_r") (h2 : key ≠ kk ++ "_derv_r_mag")
    (h3 : key ≠ kk ++ "_derv_c_mag") (h4 : key2 ≠ kk ++ "_derv_c") :
    dlookup rc.1 key = dlookup accr key ∧ dlookup rc.2 key2 = dlookup accc key2 := by
  unfold derv_step at h
  cases hsr : derv_step_r kk vv accr with
  | error e =>
    rw [hsr] at h
    exact Except.noConfusion h
  | ok accr2 =>
    rw [hsr] at h
    dsimp only at h
    have hrl := derv_step_r_lookup kk vv accr accr2 hsr key h1 h2
    have hcl := derv_step_c_lookup kk vv accr2 accc rc h key key2 h3 h4
    exact ⟨hcl.1.trans hrl, hcl.2⟩

theorem derv_step_c_mem (kk : String) (vv : OutputVariableDef)
    (accr accc : List (String × OutputVariableDef))
    (rc : List (String × OutputVariableDef) × List (String × OutputVariableDef))
    (h : derv_step_c kk vv accr accc = .ok rc) :
    ∀ p ∈ rc.2, p ∈ accc ∨ p.1 = kk ++ "_derv_c" := by
  unfold derv_step_c at h
  cases hc : vv.c_differentiable with
  | false =>
    rw [if_neg (by simp [hc])] at h
    injection h with h3
    rw [← h3]
    exact fun p hp => Or.inl hp
  | true =>
    rw [if_pos hc] at h
    cases hr : vv.r_differentiable with
    | false =>
      rw [if_neg (by simp [hr])] at h
      exact Except.noConfusion h
    | true =>
      rw [if_pos hr] at h
      cases he : emitted_derv_c kk vv with
      | error e =>
        rw [he] at h
        exact Except.noConfusion h
      | ok d =>
        rw [he] at h
        dsimp only at h
        cases hm : vv.magnetic with
        | false =>
          rw [if_neg (by simp [hm])] at h
          injection h with h3
          rw [← h3]
          exact fun p hp => mem_dinsert _ _ _ p hp
        | true =>
          rw [if_pos hm] at h
          cases hem : emitted_derv_c_mag kk vv with
          | error e =>
            rw [hem] at h
            exact Except.noConfusion h
          | ok dm =>
            rw [hem] at h
            injection h with h3
            rw [← h3]
            exact fun p hp => mem_dinsert _ _ _ p hp

theorem derv_step_mem (kk : String) (vv : OutputVariableDef)
    (accr accc : List (String × OutputVariableDef))
    (rc : List (String × OutputVariableDef) × List (String × OutputVariableDef))
    (h : derv_step kk vv accr accc = .ok rc) :
    ∀ p ∈ rc.2, p ∈ accc ∨ p.1 = kk ++ "_derv_c" := by
  unfold derv_step at h
  cases hsr : derv_step_r kk vv accr with
  | error e =>
    rw [hsr] at h
    exact Except.noConfusion h
  | ok accr2 =>
    rw [hsr] at h
    dsimp only at h
    exact derv_step_c_mem kk vv accr2 accc rc h

theorem derv_step_emits (kk : String) (vv : OutputVariableDef)
    (accr accc : List (String × OutputVariableDef))
    (rc : List (String × OutputVariableDef) × List (String × OutputVariableDef))
    (h : derv_step kk vv accr accc = .ok rc)
    (hc : vv.c_differentiable = true) (hm : vv.magnetic = true) :
    ∃ d dm, emitted_derv_c kk vv = .ok d ∧ emitted_derv_c_mag kk vv = .ok dm ∧
      dlookup rc.1 (kk ++ "_derv_c_mag") = some dm ∧
      dlookup rc.2 (kk ++ "_derv_c") = some d := by
  unfold derv_step at h
  cases hsr : derv_step_r kk vv accr with
  | error e =>
    rw [hsr] at h
    exact Except.noConfusion h
  | ok accr2 =>
    rw [hsr] at h
    dsimp only at h
    unfold derv_step_c at h
    rw [if_pos hc] at h
    cases hr : vv.r_differentiable with
    | false =>
      rw [if_neg (by simp [hr])] at h
      exact Except.noConfusion h
    | true =>
      rw [if_pos hr] at h
      cases he : emitted_derv_c kk vv with
      | error e =>
        rw [he] at h
        exact Except.noConfusion h
      | ok d =>
        rw [he] at h
        dsimp only at h
        rw [if_pos hm] at h
        cases hem : emitted_derv_c_mag kk vv with
        | error e =>
          rw [hem] at h
          exact Except.noConfusion h
        | ok dm =>
          rw [hem] at h
          injection h with h3
          rw [← h3]
          exact ⟨d, dm, rfl, rfl, dlookup_dinsert_self _ _ _,
            dlookup_dinsert_self _ _ _⟩

theorem emitted_derv_c_mag_fields (kk : String) (vv dm : OutputVariableDef)
    (h : emitted_derv_c_mag kk vv = .ok dm) :
    dm.shape = vv.shape ++ [9] ∧ dm.reducible = true ∧ dm.atomic = true ∧
      dm.magnetic = true := by
  unfold emitted_derv_c_mag at h
  cases ha : apply_operation vv OP_DERV_C with
  | error e =>
    rw [ha] at h
    exact Except.noConfusion h
  | ok cat =>
    rw [ha] at h
    injection h with h2
    rw [← h2]
    exact ⟨rfl, rfl, rfl, rfl⟩

theorem do_derivative_go_dc_mem :
    ∀ (defs accr accc : List (String × OutputVariableDef))
      (rc : List (String × OutputVariableDef) × List (String × OutputVariableDef)),
      do_derivative_go accr accc defs = .ok rc →
      ∀ p ∈ rc.2, p ∈ accc ∨ ∃ s, p.1 = s ++ "_derv_c" := by
  intro defs
  induction defs with
  | nil =>
    intro accr accc rc h p hp
    unfold do_derivative_go at h
    injection h with h3
    rw [← h3] at hp
    exact Or.inl hp
  | cons q rest ih =>
    obtain ⟨s0, v0⟩ := q
    intro accr accc rc h p hp
    unfold do_derivative_go at h
    cases hstep : derv_step s0 v0 accr accc with
    | error e =>
      rw [hstep] at h
      exact Except.noConfusion h
    | ok rc1 =>
      obtain ⟨r1, c1⟩ := rc1
      rw [hstep] at h
      dsimp only at h
      have hm1 := derv_step_mem s0 v0 accr accc (r1, c1) hstep
      rcases ih r1 c1 rc h p hp with hin | ⟨s, hs⟩
      · rcases hm1 p hin with hin2 | he
        · exact Or.inl hin2
        · exact Or.inr ⟨s0, he⟩
      · exact Or.inr ⟨s, hs⟩

theorem do_derivative_go_lookup :
    ∀ (defs accr accc : List (String × OutputVariableDef))
      (rc : List (String × OutputVariableDef) × List (String × OutputVariableDef)),
      do_derivative_go accr accc defs = .ok rc →
      ∀ key key2 : String,
        (∀ s ∈ defs.map Prod.fst, key ≠ s ++ "_derv_r" ∧
          key ≠ s ++ "_derv_r_mag" ∧ key ≠ s ++ "_derv_c_mag") →
        (∀ s ∈ defs.map Prod.fst, key2 ≠ s ++ "_derv_c") →
        dlookup rc.1 key = dlookup accr key ∧
          dlookup rc.2 key2 = dlookup accc key2 := by
  intro defs
  induction defs with
  | nil =>
    intro accr accc rc h key key2 hk hk2
    unfold do_derivative_go at h
    injection h with h3
    rw [← h3]
    exact ⟨rfl, rfl⟩
  | cons q rest ih =>
    obtain ⟨s0, v0⟩ := q
    intro accr accc rc h key key2 hk hk2
    unfold do_derivative_go at h
    cases hstep : derv_step s0 v0 accr accc with
    | error e =>
      rw [hstep] at h
      exact Except.noConfusion h
    | ok rc1 =>
      obtain ⟨r1, c1⟩ := rc1
      rw [hstep] at h
      dsimp only at h
      have h0 := hk s0 (by simp)
      have h02 := hk2 s0 (by simp)
      have hstepl := derv_step_lookup s0 v0 accr accc (r1, c1) hstep key key2
        h0.1 h0.2.1 h0.2.2 h02
      have hrest := ih r1 c1 rc h key key2
        (fun s hs => hk s (by simp [hs])) (fun s hs => hk2 s (by simp [hs]))
      exact ⟨hrest.1.trans hstepl.1, hrest.2.trans hstepl.2⟩

theorem do_derivative_go_c6 :
    ∀ (defs accr accc : List (String × OutputVariableDef))
      (rc : List (String × OutputVariableDef) × List (String × OutputVariableDef))
      (k : String) (vv : OutputVariableDef),
      do_derivative_go accr accc defs = .ok rc →
      (defs.map Prod.fst).Nodup → (k, vv) ∈ defs →
      vv.c_differentiable = true → vv.magnetic = true →
      (∃ dm, emitted_derv_c_mag k vv = .ok dm ∧
        dlookup rc.1 (k ++ "_derv_c_mag") = some dm) ∧
      (∃ d, emitted_derv_c k vv = .ok d ∧
        dlookup rc.2 (k ++ "_derv_c") = some d) := by
  intro defs
  induction defs with
  | nil =>
    intro accr accc rc k vv h hnd hmem hc hm
    exact absurd hmem (List.not_mem_nil _)
  | cons q rest ih =>
    obtain ⟨s0, v0⟩ := q
    intro accr accc rc k vv h hnd hmem hc hm
    unfold do_derivative_go at h
    cases hstep : derv_step s0 v0 accr accc with
    | error e =>
      rw [hstep] at h
      exact Except.noConfusion h
    | ok rc1 =>
      obtain ⟨r1, c1⟩ := rc1
      rw [hstep] at h
      dsimp only at h
      rcases List.mem_cons.mp hmem with heq | hmem2
      · injection heq with hk hv
        subst hk
        subst hv
        obtain ⟨d, dm, hed, hedm, hl1, hl2⟩ :=
          derv_step_emits k vv accr accc (r1, c1) hstep hc hm
        have hknot : k ∉ rest.map Prod.fst := by
          simp only [List.map_cons] at hnd
          exact (List.nodup_cons.mp hnd).1
        have hpres := do_derivative_go_lookup rest r1 c1 rc h
          (k ++ "_derv_c_mag") (k ++ "_derv_c")
          (fun s hs => ⟨ne_dcmag_dr k s, ne_dcmag_drmag k s, fun hemag =>
            hknot (by
              have hks : k = s := string_append_right_cancel k s "_derv_c_mag" hemag
              rw [hks]
              exact hs)⟩)
          (fun s hs he =>
            hknot (by
              have hks : k = s := string_append_right_cancel k s "_derv_c" he
              rw [hks]
              exact hs))
        exact ⟨⟨dm, hedm, hpres.1.trans hl1⟩, ⟨d, hed, hpres.2.trans hl2⟩⟩
      · have hnd2 : (rest.map Prod.fst).Nodup := by
          simp only [List.map_cons] at hnd
          exact (List.nodup_cons.mp hnd).2
        exact ih r1 c1 rc k vv h hnd2 hmem2 hc hm

/-- C6: for every base variable that is both `c_differentiable` and
`magnetic` in a schema with distinct names, `do_derivative` emits
`k_derv_c_mag` (shape extended by `[9]`, reducible, atomic, magnetic) into the
COORDINATE-derivative mapping (the first component, exposed via
`keys_derv_r`), never into the cell-derivative mapping, while the non-magnetic
`k_derv_c` goes into the cell-derivative mapping; concretely, the magnetic
energy model exposes `energy_derv_c_mag` through `keys_derv_r` and only
`energy_derv_c` through `keys_derv_c`. -/
theorem claim_C6 :
    (∀ (defs : List (String × OutputVariableDef)) (k : String)
      (vv : OutputVariableDef)
      (dr dc : List (String × OutputVariableDef)),
      (defs.map Prod.fst).Nodup → (k, vv) ∈ defs →
      vv.c_differentiable = true → vv.magnetic = true →
      do_derivative defs = .ok (dr, dc) →
      (∃ dm, emitted_derv_c_mag k vv = .ok dm ∧
        dlookup dr (k ++ "_derv_c_mag") = some dm ∧
        dm.shape = vv.shape ++ [9] ∧ dm.reducible = true ∧ dm.atomic = true ∧
        dm.magnetic = true) ∧
      dlookup dc (k ++ "_derv_c_mag") = none ∧
      (∃ d, emitted_derv_c k vv = .ok d ∧
        dlookup dc (k ++ "_derv_c") = some d)) ∧
    energyMagModel.toOption.map ModelOutputDef.keys_derv_r =
      some ["energy_derv_r", "energy_derv_r_mag", "energy_derv_c_mag"] ∧
    energyMagModel.toOption.map ModelOutputDef.keys_derv_c =
      some ["energy_derv_c"] := by
  refine ⟨?_, rfl, rfl⟩
  intro defs k vv dr dc hnd hmem hc hm hok
  unfold do_derivative at hok
  obtain ⟨⟨dm, hedm, hl1⟩, ⟨d, hed, hl2⟩⟩ :=
    do_derivative_go_c6 defs [] [] (dr, dc) k vv hok hnd hmem hc hm
  have hf := emitted_derv_c_mag_fields k vv dm hedm
  refine ⟨⟨dm, hedm, hl1, hf.1, hf.2.1, hf.2.2.1, hf.2.2.2⟩, ?_, ⟨d, hed, hl2⟩⟩
  have hkeys := do_derivative_go_dc_mem defs [] [] (dr, dc) hok
  unfold dlookup
  apply lookup_eq_none_of_all_ne
  intro p hp
  rcases hkeys p hp with hin | ⟨s, hs⟩
  · exact absurd hin (List.not_mem_nil p)
  · rw [hs]
    exact ne_dc_dcmag s k

/-- C6 witness: the general emission theorem applied to the singleton
magnetic-energy schema. -/
theorem claim_C6_witness :
    (∃ dm, emitted_derv_c_mag "energy" eMag = Except.ok dm ∧
      dlookup drW ("energy" ++ "_derv_c_mag") = some dm ∧
      dm.shape = eMag.shape ++ [9] ∧ dm.reducible = true ∧ dm.atomic = true ∧
      dm.magnetic = true) ∧
    dlookup dcW ("energy" ++ "_derv_c_mag") = none ∧
    (∃ d, emitted_derv_c "energy" eMag = Except.ok d ∧
      dlookup dcW ("energy" ++ "_derv_c") = some d) :=
  claim_C6.1 [("energy", eMag)] "energy" eMag drW dcW (by decide) (by decide)
    rfl rfl rfl

end OutputDef
